import Mathlib

/-
Shallow embedding of the volute heatmap renderer (src/volute): the data
model (datastructures.py), the color spectrum compiler (colors.py) and the
rendering pipeline (render.py).

Numeric model: Python floats are embedded as exact rationals (ℚ), integer
quantities as ℤ/ℕ.  The transcendental collaborators that the code calls
(math.exp for the Gaussian kernel, math.asin for the palette remap,
mercantile.tile for slippy-map tile indices, haversine.inverse_haversine for
the great-circle destination) are taken as function parameters of the
embedding, exactly as the spec treats them (black-box collaborator
interfaces); the facts a theorem needs about them (for instance that
asin(-1)/pi = -1/2, or that tile x-indices are monotone in longitude) appear
as explicit hypotheses.
-/

namespace Volute

/-- RgbaColor from colors.py: a 4-tuple of 0..255 channel values. -/
abbrev Rgba := ℤ × ℤ × ℤ × ℤ

/-- Gradient (colors.py lines 13-18): two hue endpoints and two value
endpoints of an HSV sweep. -/
structure Gradient where
  lowest_hue : ℚ
  highest_hue : ℚ
  lowest_value : ℚ
  highest_value : ℚ
deriving DecidableEq

/-- Gradient.BLUE_TO_RED (colors.py lines 24-29). -/
def Gradient.BLUE_TO_RED : Gradient :=
  { lowest_hue := 2 / 3, highest_hue := 0, lowest_value := 35 / 100, highest_value := 85 / 100 }

/-- Gradient.GREEN_TO_RED (colors.py lines 32-37). -/
def Gradient.GREEN_TO_RED : Gradient :=
  { lowest_hue := 1 / 3, highest_hue := 0, lowest_value := 35 / 100, highest_value := 85 / 100 }

/-- LatLngBox (datastructures.py lines 32-41): south, west, north, east in
degrees. -/
structure LatLngBox where
  south : ℚ
  west : ℚ
  north : ℚ
  east : ℚ
deriving DecidableEq

/-- DataPoint (datastructures.py lines 53-60): latlng is the (lat, lng)
pair; radius_metres falls back to the config default when absent. -/
structure DataPoint where
  latlng : ℚ × ℚ
  weight : ℚ := 1
  radius_metres : Option ℤ := none
deriving DecidableEq

/-- Config (datastructures.py lines 63-74): the user-configurable rendering
parameters. -/
structure Config where
  gradient : Gradient := Gradient.GREEN_TO_RED
  default_radius_metres : ℤ := 750
  num_colors : ℕ := 200
  high_trim : ℚ := 99 / 100
  num_loggings : ℕ := 10
deriving DecidableEq

/-- Python int() applied to a rational: truncation toward zero. -/
def pyTrunc (q : ℚ) : ℤ :=
  if 0 ≤ q then ⌊q⌋ else -⌊-q⌋

/-- colorsys.hsv_to_rgb, the Python standard library conversion the code
calls: exact rational transcription.  int(h*6.0) truncates; the Python %
operator on ints returns a value in [0, 6), matching Int.emod. -/
def hsvToRgb (h s v : ℚ) : ℚ × ℚ × ℚ :=
  if s = 0 then (v, v, v)
  else
    let i0 := pyTrunc (h * 6)
    let f := h * 6 - (i0 : ℚ)
    let p := v * (1 - s)
    let q := v * (1 - s * f)
    let t := v * (1 - s * (1 - f))
    match i0 % 6 with
    | 0 => (v, t, p)
    | 1 => (q, v, p)
    | 2 => (p, v, t)
    | 3 => (p, q, v)
    | 4 => (t, p, v)
    | _ => (v, p, q)

/-- One color of compile_color_spectrum (colors.py lines 44-66), at loop
index i.  asinPi models the collaborator t ↦ asin(t)/pi, so the remapped
position asin(2*apos - 1)/pi + 0.5 is asinPi (2*apos - 1) + 1/2. -/
def spectrumColor (asinPi : ℚ → ℚ) (g : Gradient) (n : ℕ) (i : ℕ) : Rgba :=
  let pos : ℚ := (i : ℚ) / ((n : ℚ) - 1)
  let apos := pos ^ 10
  let apos2 := asinPi (2 * apos - 1) + 1 / 2
  let c := hsvToRgb (g.lowest_hue + apos2 * (g.highest_hue - g.lowest_hue)) 1
    (g.lowest_value + pos * (g.highest_value - g.lowest_value))
  (pyTrunc (c.1 * 255), pyTrunc (c.2.1 * 255), pyTrunc (c.2.2 * 255), 255)

/-- compile_color_spectrum (colors.py lines 40-66): the list of num_colors
RGBA colors the generator yields, in order. -/
def compileColorSpectrum (asinPi : ℚ → ℚ) (g : Gradient) (n : ℕ) : List Rgba :=
  (List.range n).map (spectrumColor asinPi g n)

/-- The claim C9 comparison point, written from the claim text: an HSV color
(hue, saturation 1, value) converted to RGB and scaled to 0..255 with alpha
255. -/
def rgbaOfHsv (hue hval : ℚ) : Rgba :=
  let c := hsvToRgb hue 1 hval
  (pyTrunc (c.1 * 255), pyTrunc (c.2.1 * 255), pyTrunc (c.2.2 * 255), 255)

/-- Geometry (render.py lines 23-34).  In stretch_to_full_tiles mode the
tile bounds are integers; in the other mode the code divides the numpy int
array by 256, giving fractional tile coordinates, so the tile fields are
rationals here. -/
structure Geometry where
  top_left_tile : ℚ × ℚ
  top_left_pixel : ℤ × ℤ
  bottom_right_tile : ℚ × ℚ
  bottom_right_pixel : ℤ × ℤ
  pixel_size : ℤ × ℤ
deriving DecidableEq

/-- Geometry.compile (render.py lines 36-67).  tile is the mercantile.tile
collaborator, taking (lng, lat, zoom) to integer (x, y) tile indices.  In
the non-stretch branch the code computes bottom_right_tile from
bottom_right_pixel before the += 1, which is reproduced here. -/
def Geometry.compile (tile : ℚ → ℚ → ℕ → ℤ × ℤ) (box : LatLngBox) (zoom : ℕ)
    (stretch_to_full_tiles : Bool) : Geometry :=
  match stretch_to_full_tiles with
  | true =>
    let top_left_tile := tile box.west box.north zoom
    let top_left_pixel := (top_left_tile.1 * 256, top_left_tile.2 * 256)
    let bottom_right_tile :=
      ((tile box.east box.south zoom).1 + 1, (tile box.east box.south zoom).2 + 1)
    let bottom_right_pixel := (bottom_right_tile.1 * 256, bottom_right_tile.2 * 256)
    { top_left_tile := ((top_left_tile.1 : ℚ), (top_left_tile.2 : ℚ)),
      top_left_pixel := top_left_pixel,
      bottom_right_tile := ((bottom_right_tile.1 : ℚ), (bottom_right_tile.2 : ℚ)),
      bottom_right_pixel := bottom_right_pixel,
      pixel_size := (bottom_right_pixel.1 - top_left_pixel.1,
        bottom_right_pixel.2 - top_left_pixel.2) }
  | false =>
    let top_left_pixel := tile box.west box.north (zoom + 8)
    let bottom_right_pixel0 := tile box.east box.south (zoom + 8)
    let bottom_right_pixel := (bottom_right_pixel0.1 + 1, bottom_right_pixel0.2 + 1)
    { top_left_tile := ((top_left_pixel.1 : ℚ) / 256, (top_left_pixel.2 : ℚ) / 256),
      top_left_pixel := top_left_pixel,
      bottom_right_tile := ((bottom_right_pixel0.1 : ℚ) / 256 + 1,
        (bottom_right_pixel0.2 : ℚ) / 256 + 1),
      bottom_right_pixel := bottom_right_pixel,
      pixel_size := (bottom_right_pixel.1 - top_left_pixel.1,
        bottom_right_pixel.2 - top_left_pixel.2) }

/-- A concrete slippy-map-like tile function used only by witnesses: the
x index is monotone in longitude, the y index antitone in latitude. -/
def tileV : ℚ → ℚ → ℕ → ℤ × ℤ := fun lng lat _ => (⌊lng⌋, ⌊-lat⌋)

/-- The tile slicer _split_into_tiles (render.py lines 185-200), over integer tile bounds
(range() requires integers, which the bounds are exactly in
stretch_to_full_tiles mode).  Python iterates
product(enumerate(range(tlx, brx)), enumerate(range(tly, bry))), and
enumerate(range(a, b)) pairs local index i with tile number a + i for
i in range(b - a), which is rendered directly over the index lists here.
image.crop((i*256, j*256, (i+1)*256, (j+1)*256)) is the 256 by 256 view
whose pixel (u, v) is raster pixel (i*256 + u, j*256 + v). -/
def splitIntoTiles {α : Type} (tlx tly brx bry : ℤ) (img : ℤ → ℤ → α) :
    List (ℤ × ℤ × (ℕ → ℕ → α)) :=
  (List.range (brx - tlx).toNat).flatMap fun (i : ℕ) =>
    (List.range (bry - tly).toNat).map fun (j : ℕ) =>
      (tlx + (i : ℤ), tly + (j : ℤ),
        fun (u v : ℕ) => img ((i : ℤ) * 256 + (u : ℤ)) ((j : ℤ) * 256 + (v : ℤ)))

/-- A surface (the 2-D numpy accumulation buffer): cell values indexed by
canvas pixel coordinates.  Cells outside the geometry's pixel_size are
identically 0 and never written. -/
abbrev Surf := ℤ → ℤ → ℚ

/-- np.zeros(geom.pixel_size) (render.py line 86). -/
def zeroSurf : Surf := fun _ _ => 0

/-- The two ways the numpy code can raise inside the accumulation loop:
np.zeros([r2, r2]) with a negative dimension raises ValueError, and a slice
assignment whose operand shapes cannot broadcast raises ValueError. -/
inductive RenderErr where
  | negativeKernelSize : RenderErr
  | broadcastMismatch : RenderErr
deriving DecidableEq

/-- The conversion _metres_to_pixels (render.py lines 130-148).  invHav is the collaborator
inverse_haversine with Direction.EAST baked in, taking ((lat, lng), km) to a
destination (lat, lng); tile is mercantile.tile as before.  The lru_cache on
the Python function is a pure memoization with no observable behavior. -/
def metresToPixels (tile : ℚ → ℚ → ℕ → ℤ × ℤ) (invHav : ℚ × ℚ → ℚ → ℚ × ℚ)
    (box : LatLngBox) (zoom : ℕ) (metres : ℤ) : ℤ :=
  let lng1 := (box.east + box.west) / 2
  let lat1 := (box.north + box.south) / 2
  let dest := invHav (lat1, lng1) ((metres : ℚ) / 1000)
  (tile dest.2 dest.1 (zoom + 8)).1 - (tile lng1 lat1 (zoom + 8)).1

/-- The resolved kernel radius in pixels of one data point (render.py line
93): point.radius_metres or config.default_radius_metres, converted. -/
def pointRadius (tile : ℚ → ℚ → ℕ → ℤ × ℤ) (invHav : ℚ × ℚ → ℚ → ℚ × ℚ)
    (cfg : Config) (box : LatLngBox) (zoom : ℕ) (p : DataPoint) : ℤ :=
  metresToPixels tile invHav box zoom (p.radius_metres.getD cfg.default_radius_metres)

/-- A kernel: a square matrix of side `side` whose entry at (i, j) is
val i j. -/
structure Kern where
  side : ℕ
  val : ℕ → ℕ → ℚ

/-- The cell values of _create_kernel (render.py lines 157-165), with expFn
the math.exp collaborator.  The guard dist < radius (dist =
hypot(x - r, y - r)) is the exact rational condition
(x - r)^2 + (y - r)^2 < r^2, and the Gaussian exponent
-0.5 * (dist / (r / 5))^2 equals -(25 * dist^2) / (2 * r^2), exactly. -/
def kernVal (expFn : ℚ → ℚ) (r : ℤ) : ℕ → ℕ → ℚ := fun i j =>
  if ((i : ℤ) - r) ^ 2 + ((j : ℤ) - r) ^ 2 < r ^ 2 then
    expFn (-(25 * ((((i : ℤ) - r) ^ 2 + ((j : ℤ) - r) ^ 2 : ℤ) : ℚ)) / (2 * (r : ℚ) ^ 2))
  else 0

/-- The kernel builder _create_kernel (render.py lines 151-166): np.zeros([2r, 2r]) raises
ValueError when 2r is negative; for r = 0 it yields an empty 0 by 0 kernel
and the loop body never runs. -/
def createKernel (expFn : ℚ → ℚ) (r : ℤ) : Except RenderErr Kern :=
  if r < 0 then .error .negativeKernelSize
  else .ok { side := (2 * r).toNat, val := kernVal expFn r }

/-- Python slice a[:m] on a sequence of length len: for m >= 0 keep the
first min m len entries, for m < 0 drop the last -m (clamped at zero). -/
def pyTake (m : ℤ) (len : ℕ) : ℕ :=
  if 0 ≤ m then min m.toNat len else len - (-m).toNat

/-- The stamp origin after the leading-edge clamp (render.py lines 103 and
108): a negative origin is reset to 0. -/
def clampedOrigin (o : ℤ) : ℤ := if o < 0 then 0 else o

/-- How many leading rows/columns the leading-edge slice stamp[-o:] drops
(render.py lines 102 and 107): the re-basing offset into the kernel. -/
def trimmedOff (o : ℤ) : ℕ := if o < 0 then (-o).toNat else 0

/-- Rows kept by the x-axis trim (render.py lines 100-105): stamp[-x:] for
a negative origin, else the trailing slice stamp[: w - x - 2r] when
x + 2r > w (strict comparison), else the whole side. -/
def trimmedRows (o r extent : ℤ) (side : ℕ) : ℕ :=
  if o < 0 then side - (-o).toNat
  else if extent < o + 2 * r then pyTake (extent - o - 2 * r) side
  else side

/-- Columns kept by the y-axis trim (render.py lines 106-110): identical to
the x-axis trim except for the non-strict comparison y + 2r >= h on the
trailing edge. -/
def trimmedCols (o r extent : ℤ) (side : ℕ) : ℕ :=
  if o < 0 then side - (-o).toNat
  else if extent ≤ o + 2 * r then pyTake (extent - o - 2 * r) side
  else side

/-- The x component of a stamp's origin (render.py line 97): the point's
Mercator pixel at zoom+8 minus pixel_base minus the radius.  The point's
latlng is (lat, lng) and mercantile.tile takes (lng, lat). -/
def originX (tile : ℚ → ℚ → ℕ → ℤ × ℤ) (zoom : ℕ) (geom : Geometry) (r : ℤ)
    (p : DataPoint) : ℤ :=
  (tile p.latlng.2 p.latlng.1 (zoom + 8)).1 - geom.top_left_pixel.1 - r

/-- The y component of a stamp's origin (render.py line 97). -/
def originY (tile : ℚ → ℚ → ℕ → ℤ × ℤ) (zoom : ℕ) (geom : Geometry) (r : ℤ)
    (p : DataPoint) : ℤ :=
  (tile p.latlng.2 p.latlng.1 (zoom + 8)).2 - geom.top_left_pixel.2 - r

/-- One iteration of the accumulation loop (render.py lines 92-113): build
the kernel, trim it against the canvas edges, and add it onto the surface.
The final statement surface[x : x + rows, y : y + cols] += stamp is a numpy
broadcasting assignment: the target slice is clipped to the canvas (tRows,
tCols below), and numpy raises ValueError when a clipped target dimension
differs from the corresponding stamp dimension, unless that stamp dimension
is 1 (broadcastable; as tRows <= rows and tCols <= cols always hold here, a
dimension-1 broadcast can only be an empty write, so no value is ever
repeated).  On success the write adds point.weight times the kernel value
over the written region, kernel indices re-based by the leading trim. -/
def stampPoint (expFn : ℚ → ℚ) (tile : ℚ → ℚ → ℕ → ℤ × ℤ)
    (invHav : ℚ × ℚ → ℚ → ℚ × ℚ) (cfg : Config) (box : LatLngBox) (zoom : ℕ)
    (geom : Geometry) (surf : Surf) (p : DataPoint) : Except RenderErr Surf :=
  let r := pointRadius tile invHav cfg box zoom p
  match createKernel expFn r with
  | .error e => .error e
  | .ok kern =>
    let w := geom.pixel_size.1
    let h := geom.pixel_size.2
    let x0 := originX tile zoom geom r p
    let y0 := originY tile zoom geom r p
    let rows := trimmedRows x0 r w kern.side
    let cols := trimmedCols y0 r h kern.side
    let x := clampedOrigin x0
    let y := clampedOrigin y0
    let tRows := (min (rows : ℤ) (max (w - x) 0)).toNat
    let tCols := (min (cols : ℤ) (max (h - y) 0)).toNat
    if (tRows = rows ∨ rows = 1) ∧ (tCols = cols ∨ cols = 1) then
      .ok fun i j =>
        surf i j +
          (if x ≤ i ∧ i < x + (tRows : ℤ) ∧ y ≤ j ∧ j < y + (tCols : ℤ) then
            p.weight * kern.val ((i - x).toNat + trimmedOff x0) ((j - y).toNat + trimmedOff y0)
          else 0)
    else .error .broadcastMismatch

/-- The for loop of compute_surface_matrix (render.py lines 92-113): fold
the stamping step over the data points in order, stopping at the first
raised error. -/
def runStamps (step : Surf → DataPoint → Except RenderErr Surf) :
    List DataPoint → Surf → Except RenderErr Surf
  | [], s => .ok s
  | p :: ps, s =>
    match step s p with
    | .error e => .error e
    | .ok s2 => runStamps step ps s2

/-- The accumulation phase of compute_surface_matrix (render.py lines
86-113): an all-zero surface, then the loop over the data points. -/
def accumulateSurface (expFn : ℚ → ℚ) (tile : ℚ → ℚ → ℕ → ℤ × ℤ)
    (invHav : ℚ × ℚ → ℚ → ℚ × ℚ) (cfg : Config) (box : LatLngBox) (zoom : ℕ)
    (geom : Geometry) (pts : List DataPoint) : Except RenderErr Surf :=
  runStamps (stampPoint expFn tile invHav cfg box zoom geom) pts zeroSurf

/-- The logging passes (render.py lines 117-118): config.num_loggings
iterations of surface = log(surface + 1), with lg the np.log collaborator. -/
def applyLoggings (lg : ℚ → ℚ) : ℕ → Surf → Surf
  | 0, s => s
  | n + 1, s => applyLoggings lg n (fun i j => lg (s i j + 1))

/-- All cell values of a w by h surface, row-major. -/
def surfVals (w h : ℕ) (s : Surf) : List ℚ :=
  (List.range w).flatMap fun (i : ℕ) => (List.range h).map fun (j : ℕ) => s (i : ℤ) (j : ℤ)

/-- np.amax over a (nonempty) surface. -/
def surfMax (w h : ℕ) (s : Surf) : ℚ := (surfVals w h s).foldl max (s 0 0)

/-- np.amin over a (nonempty) surface. -/
def surfMin (w h : ℕ) (s : Surf) : ℚ := (surfVals w h s).foldl min (s 0 0)

/-- The (np.amin, np.amax) pair that the normalization
surface = (surface - np.amin(surface)) / np.amax(surface) (render.py line
121) reads after the logging passes.  The code has no degenerate-surface
guard of any kind: when this pair is (0, 0) the division is 0/0, which
numpy evaluates to NaN cell-wise while emitting only a RuntimeWarning, and
compute_surface_matrix returns the NaN-filled surface. -/
def normalizationExtremes (expFn : ℚ → ℚ) (tile : ℚ → ℚ → ℕ → ℤ × ℤ)
    (invHav : ℚ × ℚ → ℚ → ℚ × ℚ) (lg : ℚ → ℚ) (cfg : Config) (box : LatLngBox)
    (zoom : ℕ) (geom : Geometry) (pts : List DataPoint) : Except RenderErr (ℚ × ℚ) :=
  (accumulateSurface expFn tile invHav cfg box zoom geom pts).map fun s =>
    (surfMin geom.pixel_size.1.toNat geom.pixel_size.2.toNat
        (applyLoggings lg cfg.num_loggings s),
     surfMax geom.pixel_size.1.toNat geom.pixel_size.2.toNat
        (applyLoggings lg cfg.num_loggings s))

/-- Reads the surface of a successful stamping at one cell; an error result
reads as the sentinel -1 (used only to evaluate concrete runs). -/
def surfAt (e : Except RenderErr Surf) (i j : ℤ) : ℚ :=
  match e with
  | .ok s => s i j
  | .error _ => -1

/-- Whether a stamping result is a success. -/
def exceptIsOk : Except RenderErr Surf → Bool
  | .ok _ => true
  | .error _ => false

/-- The claim C2 scope predicate, written from the claim text: the kernel
stamped at origin o with side 2r lies fully outside a canvas of the given
extent on that axis. -/
def kernelFullyOutside (o r extent : ℤ) : Prop := o + 2 * r ≤ 0 ∨ extent ≤ o

/-- A kernel that overflows both edges of the canvas on one axis: origin
negative while the far edge exceeds the extent. -/
def kernelStraddles (o r extent : ℤ) : Prop := o < 0 ∧ extent < o + 2 * r

/-- The empty single-point box used by concrete witnesses. -/
def boxPt : LatLngBox := ⟨0, 0, 0, 0⟩

/-- A concrete destination collaborator for witnesses: moves one degree of
longitude east per kilometre. -/
def invHavKm : ℚ × ℚ → ℚ → ℚ × ℚ := fun c d => (c.1, c.2 + d)

/-- A concrete destination collaborator for witnesses that goes nowhere, so
every metres-to-pixels conversion resolves to 0 pixels. -/
def invHavId : ℚ × ℚ → ℚ → ℚ × ℚ := fun c _ => c

/-- A concrete stand-in for math.exp in witnesses (the kernel cell values
are irrelevant to the stamped-shape facts being witnessed). -/
def expOne : ℚ → ℚ := fun _ => 1

/-- A concrete 4 by 4 canvas geometry for witnesses. -/
def smallGeom : Geometry := ⟨(0, 0), (0, 0), (0, 0), (0, 0), (4, 4)⟩

/-- The default configuration (all Config defaults). -/
def cfg0 : Config := {}

/-- A configuration whose default radius resolves to 3 pixels under invHavKm
and tileV at the single-point box. -/
def cfgR3 : Config := { default_radius_metres := 3000 }

/-- A configuration whose default radius resolves to 1 pixel under invHavKm
and tileV at the single-point box. -/
def cfgR1 : Config := { default_radius_metres := 1000 }

/-- The C2 counterexample point: under tileV at zoom 0 its stamp origin is
(5, -1) with radius 3 on the 4 by 4 canvas, fully outside on the x axis
while straddling both y edges. -/
def ptC2 : DataPoint := ⟨(-2, 8), 1, none⟩

/-- The C4 point whose kernel far edge exactly reaches the canvas extent on
the y axis: origin (1, 2), radius 1, canvas 4 by 4. -/
def ptY4 : DataPoint := ⟨(-3, 2), 1, none⟩

/-- The C4 comparison point whose kernel far edge exactly reaches the canvas
extent on the x axis: origin (2, 1), radius 1, canvas 4 by 4. -/
def ptX4 : DataPoint := ⟨(-2, 3), 1, none⟩

/-- A point at the origin (radius resolves to 0 under invHavId). -/
def pt7 : DataPoint := ⟨(0, 0), 1, none⟩

/-- A second point for the permutation witness. -/
def pt6b : DataPoint := ⟨(1, 1), 2, none⟩

/-- Python bisect.bisect_left(a, v) for a sorted ascending list a: the
leftmost insertion index of v, which equals the number of elements of a
strictly below v.  paint_image (render.py line 180) only calls it on the
sorted output of np.sort. -/
def bisect_left (l : List ℚ) (v : ℚ) : ℕ := l.countP fun a => decide (a < v)

/-- surface[surface > 0] (render.py line 175): the strictly positive cell
values of a w by h surface. -/
def positiveValues (w h : ℕ) (s : Surf) : List ℚ :=
  (surfVals w h s).filter fun v => decide (0 < v)

/-- all_values = np.sort(surface[surface > 0], axis=None) (render.py line
175), as a comparison sort of the positive values. -/
def sortedPositives (w h : ℕ) (s : Surf) : List ℚ :=
  (positiveValues w h s).insertionSort (· ≤ ·)

/-- The palette index paint_image computes for a cell of value v (render.py
lines 180-181): int((bisect_left(all_values, v) / num_values) * num_colors).
The operand is nonnegative, so Python int() truncation is the floor. -/
def paintIndex (numColors : ℕ) (allValues : List ℚ) (v : ℚ) : ℤ :=
  ⌊((bisect_left allValues v : ℚ) / (allValues.length : ℚ)) * (numColors : ℚ)⌋

/-- pixels[pt] = color_spectrum[int(vi * num_colors)] (render.py line 181):
the color painted for a cell of value v (list indexing is justified by the
bounds in the C3 theorem). -/
def paintPixel (asinPi : ℚ → ℚ) (cfg : Config) (allValues : List ℚ) (v : ℚ) : Rgba :=
  (compileColorSpectrum asinPi cfg.gradient cfg.num_colors).getD
    (paintIndex cfg.num_colors allValues v).toNat (0, 0, 0, 0)

/-- The all-ones surface, used by the C3 witness. -/
def oneSurf : Surf := fun _ _ => 1

theorem compileColorSpectrum_getD (a : ℚ → ℚ) (g : Gradient) (n k : ℕ) (d : Rgba)
    (hk : k < n) :
    (compileColorSpectrum a g n).getD k d = spectrumColor a g n k := by
  simp [compileColorSpectrum, List.getD_eq_getElem?_getD, List.getElem?_map,
    List.getElem?_range hk]

/-- C5: for every valid box and zoom, Geometry.compile with
stretch_to_full_tiles = true yields top_left_pixel = 256 * top_left_tile,
bottom_right_pixel = 256 * bottom_right_tile, where bottom_right_tile is
the tile containing (east, south) plus 1, and pixel_size equals exactly
256 * (bottom_right_tile - top_left_tile) on both axes. -/
theorem claim5_stretch_tile_alignment (tile : ℚ → ℚ → ℕ → ℤ × ℤ) (box : LatLngBox)
    (zoom : ℕ) (hvalid : box.south ≤ box.north ∧ box.west ≤ box.east) :
    (Geometry.compile tile box zoom true).top_left_pixel
      = ((tile box.west box.north zoom).1 * 256, (tile box.west box.north zoom).2 * 256)
    ∧ (Geometry.compile tile box zoom true).bottom_right_tile
      = ((((tile box.east box.south zoom).1 + 1 : ℤ) : ℚ),
         (((tile box.east box.south zoom).2 + 1 : ℤ) : ℚ))
    ∧ (Geometry.compile tile box zoom true).bottom_right_pixel
      = (((tile box.east box.south zoom).1 + 1) * 256,
         ((tile box.east box.south zoom).2 + 1) * 256)
    ∧ ((Geometry.compile tile box zoom true).pixel_size.1 : ℚ)
      = 256 * ((Geometry.compile tile box zoom true).bottom_right_tile.1
          - (Geometry.compile tile box zoom true).top_left_tile.1)
    ∧ ((Geometry.compile tile box zoom true).pixel_size.2 : ℚ)
      = 256 * ((Geometry.compile tile box zoom true).bottom_right_tile.2
          - (Geometry.compile tile box zoom true).top_left_tile.2) := by
  refine ⟨rfl, rfl, rfl, ?_, ?_⟩ <;>
    · simp only [Geometry.compile, if_pos]
      push_cast
      ring

/-- Witness for C5 at a concrete valid box and tile function. -/
theorem claim5_stretch_tile_alignment_witness :
    ((Geometry.compile tileV ⟨0, 0, 1, 2⟩ 5 true).pixel_size.1 : ℚ)
      = 256 * ((Geometry.compile tileV ⟨0, 0, 1, 2⟩ 5 true).bottom_right_tile.1
          - (Geometry.compile tileV ⟨0, 0, 1, 2⟩ 5 true).top_left_tile.1) :=
  (claim5_stretch_tile_alignment tileV ⟨0, 0, 1, 2⟩ 5 (by norm_num)).2.2.2.1

/-- C10: for every box satisfying the invariant south <= north and
west <= east (a single-point box included) and every zoom, Geometry.compile
in both alignment modes yields bottom_right_pixel strictly greater than
top_left_pixel on both axes, so pixel_size is at least 1 on both axes, and
at least 256 in stretch mode.  Hypothesis ht is the standard slippy-map
monotonicity of the tile collaborator applied to the valid box: the tile
containing (west, north) is at or left of and at or above the tile
containing (east, south). -/
theorem claim10_positive_canvas (tile : ℚ → ℚ → ℕ → ℤ × ℤ) (box : LatLngBox)
    (zoom : ℕ) (hs : box.south ≤ box.north) (hw : box.west ≤ box.east)
    (ht : ∀ z : ℕ, (tile box.west box.north z).1 ≤ (tile box.east box.south z).1
      ∧ (tile box.west box.north z).2 ≤ (tile box.east box.south z).2)
    (stretch : Bool) :
    (Geometry.compile tile box zoom stretch).top_left_pixel.1
      < (Geometry.compile tile box zoom stretch).bottom_right_pixel.1
    ∧ (Geometry.compile tile box zoom stretch).top_left_pixel.2
      < (Geometry.compile tile box zoom stretch).bottom_right_pixel.2
    ∧ 1 ≤ (Geometry.compile tile box zoom stretch).pixel_size.1
    ∧ 1 ≤ (Geometry.compile tile box zoom stretch).pixel_size.2
    ∧ (stretch = true → 256 ≤ (Geometry.compile tile box zoom stretch).pixel_size.1
        ∧ 256 ≤ (Geometry.compile tile box zoom stretch).pixel_size.2) := by
  cases stretch with
  | false =>
    obtain ⟨hx, hy⟩ := ht (zoom + 8)
    simp only [Geometry.compile]
    refine ⟨by omega, by omega, by omega, by omega, by simp⟩
  | true =>
    obtain ⟨hx, hy⟩ := ht zoom
    simp only [Geometry.compile]
    exact ⟨by omega, by omega, by omega, by omega, fun _ => ⟨by omega, by omega⟩⟩

/-- Witness for C10 at a concrete input: a box degenerate to the single
point (0, 0), in both alignment modes. -/
theorem claim10_positive_canvas_witness :
    1 ≤ (Geometry.compile tileV ⟨0, 0, 0, 0⟩ 3 false).pixel_size.1
    ∧ 256 ≤ (Geometry.compile tileV ⟨0, 0, 0, 0⟩ 3 true).pixel_size.2 :=
  ⟨(claim10_positive_canvas tileV ⟨0, 0, 0, 0⟩ 3 le_rfl le_rfl
      (fun _ => ⟨le_rfl, le_rfl⟩) false).2.2.1,
   ((claim10_positive_canvas tileV ⟨0, 0, 0, 0⟩ 3 le_rfl le_rfl
      (fun _ => ⟨le_rfl, le_rfl⟩) true).2.2.2.2 rfl).2⟩

/-- C8: for a geometry computed with stretch_to_full_tiles = true (whose
integer tile bounds are tlx, tly, brx, bry: hypotheses hgt and hgb) and a
matching raster, the tile slicer yields exactly
(brx - tlx) * (bry - tly) tiles, covering every (x, y) of the tile
rectangle exactly once, each entry being the 256 by 256 crop of the raster
at offset ((x - tlx)*256, (y - tly)*256) and tagged with the true Mercator
tile indices, not raster-local ones.  hmx and hmy are slippy-map
monotonicity of the tile collaborator at the given box, which make the
rectangle nonempty. -/
theorem claim8_tile_cover {α : Type} (tile : ℚ → ℚ → ℕ → ℤ × ℤ) (box : LatLngBox)
    (zoom : ℕ) (img : ℤ → ℤ → α) (tlx tly brx bry : ℤ)
    (hgt : (Geometry.compile tile box zoom true).top_left_tile = ((tlx : ℚ), (tly : ℚ)))
    (hgb : (Geometry.compile tile box zoom true).bottom_right_tile = ((brx : ℚ), (bry : ℚ)))
    (hmx : (tile box.west box.north zoom).1 ≤ (tile box.east box.south zoom).1)
    (hmy : (tile box.west box.north zoom).2 ≤ (tile box.east box.south zoom).2) :
    ((splitIntoTiles tlx tly brx bry img).length : ℤ) = (brx - tlx) * (bry - tly)
    ∧ (1 : ℤ) ≤ (brx - tlx) ∧ (1 : ℤ) ≤ (bry - tly)
    ∧ (∀ x y : ℤ, (tlx ≤ x ∧ x < brx ∧ tly ≤ y ∧ y < bry)
        ↔ ∃ t, (x, y, t) ∈ splitIntoTiles tlx tly brx bry img)
    ∧ ((splitIntoTiles tlx tly brx bry img).map fun e => (e.1, e.2.1)).Nodup
    ∧ ∀ e ∈ splitIntoTiles tlx tly brx bry img,
        e.2.2 = fun (u v : ℕ) =>
          img ((e.1 - tlx) * 256 + (u : ℤ)) ((e.2.1 - tly) * 256 + (v : ℤ)) := by
  have htlx : (tile box.west box.north zoom).1 = tlx := by
    have h := congrArg Prod.fst hgt
    simp only [Geometry.compile] at h
    exact_mod_cast h
  have htly : (tile box.west box.north zoom).2 = tly := by
    have h := congrArg Prod.snd hgt
    simp only [Geometry.compile] at h
    exact_mod_cast h
  have hbrx : (tile box.east box.south zoom).1 + 1 = brx := by
    have h := congrArg Prod.fst hgb
    simp only [Geometry.compile] at h
    exact_mod_cast h
  have hbry : (tile box.east box.south zoom).2 + 1 = bry := by
    have h := congrArg Prod.snd hgb
    simp only [Geometry.compile] at h
    exact_mod_cast h
  have hx1 : (1 : ℤ) ≤ brx - tlx := by omega
  have hy1 : (1 : ℤ) ≤ bry - tly := by omega
  refine ⟨?_, hx1, hy1, ?_, ?_, ?_⟩
  · have hlen : (splitIntoTiles tlx tly brx bry img).length
        = (brx - tlx).toNat * (bry - tly).toNat := by
      simp [splitIntoTiles, List.length_flatMap, Function.comp_def, List.map_const,
        List.sum_replicate, smul_eq_mul, Nat.mul_comm]
    rw [hlen, Nat.cast_mul, Int.toNat_of_nonneg (by omega : (0 : ℤ) ≤ brx - tlx),
      Int.toNat_of_nonneg (by omega : (0 : ℤ) ≤ bry - tly)]
  · intro x y
    constructor
    · rintro ⟨h1, h2, h3, h4⟩
      have hmem : (tlx + ((x - tlx).toNat : ℤ), tly + ((y - tly).toNat : ℤ),
          fun (u v : ℕ) => img (((x - tlx).toNat : ℤ) * 256 + (u : ℤ))
            (((y - tly).toNat : ℤ) * 256 + (v : ℤ)))
          ∈ splitIntoTiles tlx tly brx bry img := by
        rw [splitIntoTiles, List.mem_flatMap]
        refine ⟨(x - tlx).toNat, List.mem_range.mpr (by omega), ?_⟩
        rw [List.mem_map]
        exact ⟨(y - tly).toNat, List.mem_range.mpr (by omega), rfl⟩
      have ex : tlx + ((x - tlx).toNat : ℤ) = x := by omega
      have ey : tly + ((y - tly).toNat : ℤ) = y := by omega
      rw [ex, ey] at hmem
      exact ⟨_, hmem⟩
    · rintro ⟨t, hmem⟩
      rw [splitIntoTiles, List.mem_flatMap] at hmem
      obtain ⟨i, hi, hmem2⟩ := hmem
      rw [List.mem_map] at hmem2
      obtain ⟨j, hj, heq⟩ := hmem2
      rw [List.mem_range] at hi hj
      have hx := congrArg Prod.fst heq
      have hy := congrArg (fun p => p.2.1) heq
      simp only at hx hy
      omega
  · have hkeys : ((splitIntoTiles tlx tly brx bry img).map fun e => (e.1, e.2.1))
        = (List.range (brx - tlx).toNat).flatMap
            fun (i : ℕ) => (List.range (bry - tly).toNat).map
              fun (j : ℕ) => (tlx + (i : ℤ), tly + (j : ℤ)) := by
      simp [splitIntoTiles, List.map_flatMap, List.map_map, Function.comp_def]
    rw [hkeys, List.nodup_flatMap]
    constructor
    · intro i _
      apply List.Nodup.map
      · intro a b hab
        have := congrArg Prod.snd hab
        simp only [add_right_inj, Nat.cast_inj] at this
        exact this
      · exact List.nodup_range _
    · refine (List.pairwise_lt_range _).imp ?_
      intro a b hab p hpa hpb
      rw [List.mem_map] at hpa hpb
      obtain ⟨j1, -, h1⟩ := hpa
      obtain ⟨j2, -, h2⟩ := hpb
      have h3 := congrArg Prod.fst (h1.trans h2.symm)
      simp only [add_right_inj, Nat.cast_inj] at h3
      omega
  · intro e he
    rw [splitIntoTiles, List.mem_flatMap] at he
    obtain ⟨i, hi, he2⟩ := he
    rw [List.mem_map] at he2
    obtain ⟨j, hj, rfl⟩ := he2
    simp only [add_sub_cancel_left]

/-- Witness for C8 at a concrete input: a box spanning 3 by 2 tiles under
the witness tile function, yielding exactly 6 tiles. -/
theorem claim8_tile_cover_witness :
    ((splitIntoTiles 0 (-1) 3 1 (fun _ _ => (0 : ℚ))).length : ℤ) = (3 - 0) * (1 - (-1)) :=
  (claim8_tile_cover tileV ⟨0, 0, 1, 2⟩ 7 (fun _ _ => (0 : ℚ)) 0 (-1) 3 1
    (by decide) (by decide) (by decide) (by decide)).1

/-- C9: for every gradient and every n >= 2, compile_color_spectrum is
deterministic (it is a pure function of its arguments) and yields exactly n
RGBA colors; color 0 equals HSV(lowest_hue, 1, lowest_value) converted to
RGB, scaled to 0..255 with alpha 255, and color n-1 equals
HSV(highest_hue, 1, highest_value) likewise, because the asin remap sends
position 0 to 0 and position 1 to 1 (hypotheses hlo and hhi are the two
facts asin(-1)/pi = -1/2 and asin(1)/pi = 1/2 about the collaborator). -/
theorem claim9_spectrum_endpoints (asinPi : ℚ → ℚ) (g : Gradient) (n : ℕ)
    (hn : 2 ≤ n) (hlo : asinPi (-1) = -(1 / 2)) (hhi : asinPi 1 = 1 / 2) :
    (compileColorSpectrum asinPi g n).length = n
    ∧ (compileColorSpectrum asinPi g n).getD 0 (0, 0, 0, 0)
        = rgbaOfHsv g.lowest_hue g.lowest_value
    ∧ (compileColorSpectrum asinPi g n).getD (n - 1) (0, 0, 0, 0)
        = rgbaOfHsv g.highest_hue g.highest_value := by
  have h0 : 0 < n := by omega
  have h1 : n - 1 < n := by omega
  refine ⟨by simp [compileColorSpectrum], ?_, ?_⟩
  · rw [compileColorSpectrum_getD _ _ _ _ _ h0]
    have hpos : ((0 : ℕ) : ℚ) / ((n : ℚ) - 1) = 0 := by norm_num
    simp only [spectrumColor, rgbaOfHsv, hpos]
    norm_num [hlo]
  · rw [compileColorSpectrum_getD _ _ _ _ _ h1]
    have hne : ((n : ℚ) - 1) ≠ 0 := by
      have h2 : (2 : ℚ) ≤ (n : ℚ) := by exact_mod_cast hn
      linarith
    have hpos : ((n - 1 : ℕ) : ℚ) / ((n : ℚ) - 1) = 1 := by
      rw [Nat.cast_sub (by omega)]
      simp [div_self hne]
    simp only [spectrumColor, rgbaOfHsv, hpos]
    norm_num [hhi]

/-- Witness for C9 at a concrete input: the GREEN_TO_RED gradient, n = 3,
and the rational stand-in t/2 for asin(t)/pi, which satisfies the two
endpoint facts. -/
theorem claim9_spectrum_endpoints_witness :
    (compileColorSpectrum (fun t => t / 2) Gradient.GREEN_TO_RED 3).length = 3
    ∧ (compileColorSpectrum (fun t => t / 2) Gradient.GREEN_TO_RED 3).getD 0 (0, 0, 0, 0)
        = rgbaOfHsv Gradient.GREEN_TO_RED.lowest_hue Gradient.GREEN_TO_RED.lowest_value
    ∧ (compileColorSpectrum (fun t => t / 2) Gradient.GREEN_TO_RED 3).getD (3 - 1) (0, 0, 0, 0)
        = rgbaOfHsv Gradient.GREEN_TO_RED.highest_hue Gradient.GREEN_TO_RED.highest_value :=
  claim9_spectrum_endpoints (fun t => t / 2) Gradient.GREEN_TO_RED 3
    (by norm_num) (by norm_num) (by norm_num)

theorem createKernel_of_nonneg (expFn : ℚ → ℚ) (r : ℤ) (hr : 0 ≤ r) :
    createKernel expFn r = .ok ⟨(2 * r).toNat, kernVal expFn r⟩ := by
  unfold createKernel
  rw [if_neg (by omega)]

theorem trimmedRows_side_zero (o r extent : ℤ) : trimmedRows o r extent 0 = 0 := by
  unfold trimmedRows pyTake
  split
  · omega
  · split
    · split <;> omega
    · rfl

theorem trimmedCols_side_zero (o r extent : ℤ) : trimmedCols o r extent 0 = 0 := by
  unfold trimmedCols pyTake
  split
  · omega
  · split
    · split <;> omega
    · rfl

theorem trimmedRows_eq_zero (o r extent : ℤ) (hr : 0 ≤ r) (hext : 0 ≤ extent)
    (hout : kernelFullyOutside o r extent) :
    trimmedRows o r extent (2 * r).toNat = 0 := by
  rcases hout with h | h
  all_goals
    unfold trimmedRows pyTake
    split
    · omega
    · split
      · split <;> omega
      · omega

theorem trimmedCols_eq_zero (o r extent : ℤ) (hr : 0 ≤ r) (hext : 0 ≤ extent)
    (hout : kernelFullyOutside o r extent) :
    trimmedCols o r extent (2 * r).toNat = 0 := by
  rcases hout with h | h
  all_goals
    unfold trimmedCols pyTake
    split
    · omega
    · split
      · split <;> omega
      · omega

theorem trimmedRows_target_eq (o r extent : ℤ) (hr : 0 ≤ r) (hext : 0 ≤ extent)
    (hno : ¬ kernelStraddles o r extent) :
    (min ((trimmedRows o r extent (2 * r).toNat : ℕ) : ℤ)
        (max (extent - clampedOrigin o) 0)).toNat
      = trimmedRows o r extent (2 * r).toNat := by
  have hno2 : o < 0 → o + 2 * r ≤ extent := by
    intro ho
    by_contra hlt
    exact hno ⟨ho, by omega⟩
  clear hno
  unfold trimmedRows clampedOrigin pyTake
  split
  next ho =>
    have := hno2 ho
    omega
  · split
    · split <;> omega
    · omega

theorem trimmedCols_target_eq (o r extent : ℤ) (hr : 0 ≤ r) (hext : 0 ≤ extent)
    (hno : ¬ kernelStraddles o r extent) :
    (min ((trimmedCols o r extent (2 * r).toNat : ℕ) : ℤ)
        (max (extent - clampedOrigin o) 0)).toNat
      = trimmedCols o r extent (2 * r).toNat := by
  have hno2 : o < 0 → o + 2 * r ≤ extent := by
    intro ho
    by_contra hlt
    exact hno ⟨ho, by omega⟩
  clear hno
  unfold trimmedCols clampedOrigin pyTake
  split
  next ho =>
    have := hno2 ho
    omega
  · split
    · split <;> omega
    · omega

theorem stampPoint_shift (expFn : ℚ → ℚ) (tile : ℚ → ℚ → ℕ → ℤ × ℤ)
    (invHav : ℚ × ℚ → ℚ → ℚ × ℚ) (cfg : Config) (box : LatLngBox) (zoom : ℕ)
    (geom : Geometry) (surf : Surf) (p : DataPoint) :
    stampPoint expFn tile invHav cfg box zoom geom surf p
      = (stampPoint expFn tile invHav cfg box zoom geom zeroSurf p).map
          (fun d => fun i j => surf i j + d i j) := by
  cases hk : createKernel expFn (pointRadius tile invHav cfg box zoom p) with
  | error e => simp [stampPoint, hk, Except.map]
  | ok kern =>
    simp only [stampPoint, hk]
    split
    · simp only [Except.map]
      congr 1
      funext i j
      simp [zeroSurf]
    · simp [Except.map]

theorem runStamps_perm (step : Surf → DataPoint → Except RenderErr Surf)
    (hstep : ∀ surf p, step surf p
      = (step zeroSurf p).map (fun d => fun i j => surf i j + d i j))
    {l1 l2 : List DataPoint} (hp : l1.Perm l2) :
    ∀ s t, runStamps step l1 s = .ok t → runStamps step l2 s = .ok t := by
  induction hp with
  | nil => exact fun s t h => h
  | cons x hp2 ih =>
    intro s t h
    simp only [runStamps] at h ⊢
    cases hx : step s x with
    | error e => rw [hx] at h; simp at h
    | ok s2 => rw [hx] at h; exact ih s2 t h
  | swap x y l =>
    intro s t h
    simp only [runStamps] at h ⊢
    cases hy : step s y with
    | error e => rw [hy] at h; simp at h
    | ok s1 =>
      simp only [hy] at h
      cases hx : step s1 x with
      | error e => simp only [hx] at h; simp at h
      | ok s2 =>
        simp only [hx] at h
        have hy2 := hstep s y
        rw [hy] at hy2
        have hx2 := hstep s1 x
        rw [hx] at hx2
        cases hcy : step zeroSurf y with
        | error e => rw [hcy] at hy2; simp [Except.map] at hy2
        | ok dy =>
          rw [hcy] at hy2
          simp only [Except.map, Except.ok.injEq] at hy2
          cases hcx : step zeroSurf x with
          | error e => rw [hcx] at hx2; simp [Except.map] at hx2
          | ok dx =>
            rw [hcx] at hx2
            simp only [Except.map, Except.ok.injEq] at hx2
            have hsx : step s x = .ok fun i j => s i j + dx i j := by
              rw [hstep s x, hcx]
              simp [Except.map]
            simp only [hsx]
            have hsy : step (fun i j => s i j + dx i j) y
                = .ok fun i j => s i j + dx i j + dy i j := by
              rw [hstep _ y, hcy]
              simp [Except.map]
            simp only [hsy]
            have hfin : (fun i j => s i j + dx i j + dy i j) = s2 := by
              rw [hx2, hy2]
              funext i j
              ring
            rw [hfin]
            exact h
  | trans hp12 hp23 ih12 ih23 => exact fun s t h => ih23 s t (ih12 s t h)

theorem runStamps_skip (step : Surf → DataPoint → Except RenderErr Surf)
    (p : DataPoint) (hp : ∀ s, step s p = .ok s) :
    ∀ (pre post : List DataPoint) (s : Surf),
      runStamps step (pre ++ p :: post) s = runStamps step (pre ++ post) s := by
  intro pre
  induction pre with
  | nil =>
    intro post s
    simp only [List.nil_append, runStamps, hp]
  | cons a pre ih =>
    intro post s
    simp only [List.cons_append, runStamps]
    cases ha : step s a with
    | error e => rfl
    | ok s2 => exact ih post s2

theorem stampPoint_radius_zero (expFn : ℚ → ℚ) (tile : ℚ → ℚ → ℕ → ℤ × ℤ)
    (invHav : ℚ × ℚ → ℚ → ℚ × ℚ) (cfg : Config) (box : LatLngBox) (zoom : ℕ)
    (geom : Geometry) (p : DataPoint)
    (hr : pointRadius tile invHav cfg box zoom p = 0) (surf : Surf) :
    stampPoint expFn tile invHav cfg box zoom geom surf p = .ok surf := by
  have hk : createKernel expFn (pointRadius tile invHav cfg box zoom p)
      = .ok ⟨0, kernVal expFn 0⟩ := by
    rw [hr, createKernel_of_nonneg expFn 0 le_rfl]
    norm_num
  have hmin : ∀ a : ℤ, (min ((0 : ℕ) : ℤ) (max a 0)).toNat = 0 := fun a => by omega
  simp only [stampPoint, hk, trimmedRows_side_zero, trimmedCols_side_zero, hmin]
  split
  next hcond =>
    refine congrArg Except.ok ?_
    funext i j
    rw [if_neg, add_zero]
    rintro ⟨h1, h2, -⟩
    simp only [Nat.cast_zero, add_zero] at h2
    omega
  next hcond =>
    exact absurd ⟨Or.inl trivial, Or.inl trivial⟩ hcond

theorem pointRadius_invHavId (tile : ℚ → ℚ → ℕ → ℤ × ℤ) (cfg : Config)
    (box : LatLngBox) (zoom : ℕ) (p : DataPoint) :
    pointRadius tile invHavId cfg box zoom p = 0 := by
  simp [pointRadius, metresToPixels, invHavId]

theorem applyLoggings_all_zero (lg : ℚ → ℚ) (hlg : lg 1 = 0) :
    ∀ (n : ℕ) (s : Surf), (∀ i j, s i j = 0) → ∀ i j, applyLoggings lg n s i j = 0 := by
  intro n
  induction n with
  | zero => exact fun s hs i j => hs i j
  | succ n ih =>
    intro s hs i j
    show applyLoggings lg n (fun i j => lg (s i j + 1)) i j = 0
    exact ih _ (fun i j => by simp [hs i j, hlg]) i j

theorem foldl_max_all_zero : ∀ l : List ℚ, (∀ x ∈ l, x = 0) → l.foldl max 0 = 0 := by
  intro l
  induction l with
  | nil => exact fun _ => rfl
  | cons a l ih =>
    intro h
    rw [List.foldl_cons, h a (List.mem_cons_self a l), max_self]
    exact ih fun x hx => h x (List.mem_cons_of_mem a hx)

theorem foldl_min_all_zero : ∀ l : List ℚ, (∀ x ∈ l, x = 0) → l.foldl min 0 = 0 := by
  intro l
  induction l with
  | nil => exact fun _ => rfl
  | cons a l ih =>
    intro h
    rw [List.foldl_cons, h a (List.mem_cons_self a l), min_self]
    exact ih fun x hx => h x (List.mem_cons_of_mem a hx)

theorem mem_surfVals (w h : ℕ) (s : Surf) (x : ℚ) (hx : x ∈ surfVals w h s) :
    ∃ i j : ℕ, s (i : ℤ) (j : ℤ) = x := by
  unfold surfVals at hx
  rw [List.mem_flatMap] at hx
  obtain ⟨i, -, hx2⟩ := hx
  rw [List.mem_map] at hx2
  obtain ⟨j, -, hj⟩ := hx2
  exact ⟨i, j, hj⟩

theorem surfMax_all_zero (w h : ℕ) (s : Surf) (hs : ∀ i j, s i j = 0) :
    surfMax w h s = 0 := by
  unfold surfMax
  rw [hs 0 0]
  apply foldl_max_all_zero
  intro x hx
  obtain ⟨i, j, hj⟩ := mem_surfVals w h s x hx
  rw [← hj]
  exact hs _ _

theorem surfMin_all_zero (w h : ℕ) (s : Surf) (hs : ∀ i j, s i j = 0) :
    surfMin w h s = 0 := by
  unfold surfMin
  rw [hs 0 0]
  apply foldl_min_all_zero
  intro x hx
  obtain ⟨i, j, hj⟩ := mem_surfVals w h s x hx
  rw [← hj]
  exact hs _ _

/-- C1: for every config and geometry, an empty data-point list leaves the
accumulated surface all zero, the logging passes keep it all zero (because
log(0 + 1) = 0, hypothesis hlg), so np.amin and np.amax after logging are
both 0 and the normalization (surface - amin) / amax divides zero by zero.
The result is ok, not an error: compute_surface_matrix has no
DegenerateSurface guard anywhere, so numpy turns every cell into NaN with
only a RuntimeWarning and the NaN surface is returned silently, contrary to
the claim that an explicit DegenerateSurface error is raised. -/
theorem claim1_flat_surface_divides_by_zero (expFn : ℚ → ℚ)
    (tile : ℚ → ℚ → ℕ → ℤ × ℤ) (invHav : ℚ × ℚ → ℚ → ℚ × ℚ) (lg : ℚ → ℚ)
    (cfg : Config) (box : LatLngBox) (zoom : ℕ) (geom : Geometry)
    (hlg : lg 1 = 0) :
    normalizationExtremes expFn tile invHav lg cfg box zoom geom [] = .ok (0, 0) := by
  have hzero : ∀ i j, applyLoggings lg cfg.num_loggings zeroSurf i j = 0 :=
    applyLoggings_all_zero lg hlg cfg.num_loggings zeroSurf (fun _ _ => rfl)
  have hacc : accumulateSurface expFn tile invHav cfg box zoom geom [] = .ok zeroSurf := rfl
  unfold normalizationExtremes
  rw [hacc]
  simp only [Except.map]
  rw [surfMin_all_zero _ _ _ hzero, surfMax_all_zero _ _ _ hzero]

/-- Witness for C1 at a concrete input: the stand-in x - 1 for the natural
log satisfies log 1 = 0. -/
theorem claim1_flat_surface_divides_by_zero_witness :
    normalizationExtremes expOne tileV invHavId (fun x => x - 1) cfg0 boxPt 0 smallGeom []
      = .ok (0, 0) :=
  claim1_flat_surface_divides_by_zero expOne tileV invHavId (fun x => x - 1)
    cfg0 boxPt 0 smallGeom (by norm_num)

/-- C6: over the exact rational arithmetic of the embedding, accumulating
the data points in any permuted order yields the same surface as the
original order: each point's stamped contribution is independent of the
surface it lands on, and cell-wise addition is commutative and associative.
Stated for successful accumulations (a run that raises keeps raising under
permutation, though with the first offending point of the new order). -/
theorem claim6_accumulation_perm (expFn : ℚ → ℚ) (tile : ℚ → ℚ → ℕ → ℤ × ℤ)
    (invHav : ℚ × ℚ → ℚ → ℚ × ℚ) (cfg : Config) (box : LatLngBox) (zoom : ℕ)
    (geom : Geometry) (pts1 pts2 : List DataPoint) (hp : pts1.Perm pts2) (s : Surf)
    (hok : accumulateSurface expFn tile invHav cfg box zoom geom pts1 = .ok s) :
    accumulateSurface expFn tile invHav cfg box zoom geom pts2 = .ok s :=
  runStamps_perm _ (stampPoint_shift expFn tile invHav cfg box zoom geom) hp zeroSurf s hok

/-- Witness for C6 at a concrete input: two points whose radius resolves to
0 pixels, in both orders. -/
theorem claim6_accumulation_perm_witness :
    accumulateSurface expOne tileV invHavId cfg0 boxPt 0 smallGeom [pt6b, pt7]
      = .ok zeroSurf := by
  have ha := stampPoint_radius_zero expOne tileV invHavId cfg0 boxPt 0 smallGeom pt7
    (pointRadius_invHavId tileV cfg0 boxPt 0 pt7)
  have hb := stampPoint_radius_zero expOne tileV invHavId cfg0 boxPt 0 smallGeom pt6b
    (pointRadius_invHavId tileV cfg0 boxPt 0 pt6b)
  have hok : accumulateSurface expOne tileV invHavId cfg0 boxPt 0 smallGeom [pt7, pt6b]
      = .ok zeroSurf := by
    simp [accumulateSurface, runStamps, ha, hb]
  exact claim6_accumulation_perm expOne tileV invHavId cfg0 boxPt 0 smallGeom
    [pt7, pt6b] [pt6b, pt7] (List.Perm.swap pt6b pt7 []) zeroSurf hok

theorem minZeroToNat (a : ℤ) : (min ((0 : ℕ) : ℤ) (max a 0)).toNat = 0 := by omega

/-- C2 (amended): a data point whose kernel lies fully outside the canvas
on some axis contributes an empty stamp: no error, no out-of-bounds index,
and the accumulated surface equals the one computed without the point —
provided the kernel does not straddle both canvas edges on the other axis
(origin negative there while origin + side overruns the extent), in which
case the numpy slice assignment raises a broadcast ValueError instead (see
the counterexample).  r, x0, y0 abbreviate the point's resolved radius and
stamp origin through the defining hypotheses hrdef, hxdef, hydef. -/
theorem claim2_outside_kernel_amended (expFn : ℚ → ℚ) (tile : ℚ → ℚ → ℕ → ℤ × ℤ)
    (invHav : ℚ × ℚ → ℚ → ℚ × ℚ) (cfg : Config) (box : LatLngBox) (zoom : ℕ)
    (geom : Geometry) (p : DataPoint) (r x0 y0 : ℤ)
    (hrdef : r = pointRadius tile invHav cfg box zoom p)
    (hxdef : x0 = originX tile zoom geom r p)
    (hydef : y0 = originY tile zoom geom r p)
    (hr : 0 ≤ r) (hw : 0 ≤ geom.pixel_size.1) (hh : 0 ≤ geom.pixel_size.2)
    (hout : (kernelFullyOutside x0 r geom.pixel_size.1
              ∧ ¬ kernelStraddles y0 r geom.pixel_size.2)
          ∨ (kernelFullyOutside y0 r geom.pixel_size.2
              ∧ ¬ kernelStraddles x0 r geom.pixel_size.1)) :
    (∀ surf, stampPoint expFn tile invHav cfg box zoom geom surf p = .ok surf)
    ∧ ∀ pre post,
        accumulateSurface expFn tile invHav cfg box zoom geom (pre ++ p :: post)
          = accumulateSurface expFn tile invHav cfg box zoom geom (pre ++ post) := by
  subst hxdef hydef hrdef
  have hmain : ∀ surf, stampPoint expFn tile invHav cfg box zoom geom surf p = .ok surf := by
    intro surf
    have hk := createKernel_of_nonneg expFn (pointRadius tile invHav cfg box zoom p) hr
    simp only [stampPoint, hk]
    rcases hout with ⟨hX, hY⟩ | ⟨hY, hX⟩
    · rw [trimmedRows_eq_zero _ _ _ hr hw hX, trimmedCols_target_eq _ _ _ hr hh hY,
        minZeroToNat]
      split
      next =>
        refine congrArg Except.ok ?_
        funext i j
        rw [if_neg, add_zero]
        rintro ⟨h1, h2, -⟩
        simp only [Nat.cast_zero, add_zero] at h2
        omega
      next hcond => exact absurd ⟨Or.inl rfl, Or.inl rfl⟩ hcond
    · rw [trimmedCols_eq_zero _ _ _ hr hh hY, trimmedRows_target_eq _ _ _ hr hw hX,
        minZeroToNat]
      split
      next =>
        refine congrArg Except.ok ?_
        funext i j
        rw [if_neg, add_zero]
        rintro ⟨-, -, h3, h4⟩
        simp only [Nat.cast_zero, add_zero] at h4
        omega
      next hcond => exact absurd ⟨Or.inl rfl, Or.inl rfl⟩ hcond
  exact ⟨hmain, fun pre post => runStamps_skip _ p hmain pre post zeroSurf⟩

/-- Counterexample to C2 as frozen: this point's kernel (radius 3) is fully
outside the 4 by 4 canvas on the x axis (origin 5 >= extent 4), so by the
claim the stamping should neither error nor change the surface; but its y
origin is -1 with far edge 5 > 4 (straddling both y edges), the trimmed
stamp has shape (0, 5) while the clipped target slice has shape (0, 4), and
the numpy += raises a broadcast ValueError. -/
theorem claim2_outside_kernel_cex :
    kernelFullyOutside
      (originX tileV 0 smallGeom (pointRadius tileV invHavKm cfgR3 boxPt 0 ptC2) ptC2)
      (pointRadius tileV invHavKm cfgR3 boxPt 0 ptC2) smallGeom.pixel_size.1
    ∧ stampPoint expOne tileV invHavKm cfgR3 boxPt 0 smallGeom zeroSurf ptC2
        = .error .broadcastMismatch := by
  have hr3 : pointRadius tileV invHavKm cfgR3 boxPt 0 ptC2 = 3 := by
    norm_num [pointRadius, metresToPixels, invHavKm, tileV, boxPt, cfgR3, ptC2]
  have hx0 : originX tileV 0 smallGeom 3 ptC2 = 5 := by
    norm_num [originX, tileV, smallGeom, ptC2]
  have hy0 : originY tileV 0 smallGeom 3 ptC2 = -1 := by
    norm_num [originY, tileV, smallGeom, ptC2]
  constructor
  · rw [hr3, hx0]
    exact Or.inr (by decide)
  · simp only [stampPoint, hr3, createKernel_of_nonneg expOne 3 (by norm_num), hx0, hy0]
    rw [if_neg (by decide)]

/-- Witness for the amended C2 at a concrete input: the same point with
radius 1 is fully outside on the x axis (origin 7 >= extent 4) and does not
straddle the y axis (origin 1 >= 0), so it contributes nothing. -/
theorem claim2_outside_kernel_amended_witness :
    accumulateSurface expOne tileV invHavKm cfgR1 boxPt 0 smallGeom [ptC2]
      = accumulateSurface expOne tileV invHavKm cfgR1 boxPt 0 smallGeom [] := by
  have hrW : pointRadius tileV invHavKm cfgR1 boxPt 0 ptC2 = 1 := by
    norm_num [pointRadius, metresToPixels, invHavKm, tileV, boxPt, cfgR1, ptC2]
  have hxW : originX tileV 0 smallGeom 1 ptC2 = 7 := by
    norm_num [originX, tileV, smallGeom, ptC2]
  have hyW : originY tileV 0 smallGeom 1 ptC2 = 1 := by
    norm_num [originY, tileV, smallGeom, ptC2]
  exact (claim2_outside_kernel_amended expOne tileV invHavKm cfgR1 boxPt 0 smallGeom ptC2
    1 7 1 hrW.symm (hrW ▸ hxW.symm) (hrW ▸ hyW.symm) (by decide) (by decide) (by decide)
    (Or.inl ⟨Or.inr (by decide), fun hc => absurd hc.1 (by decide)⟩)).2 [] []

/-- C4: the code drops the whole kernel when its far edge exactly reaches
the canvas extent on the y axis.  At radius 1 on the 4 by 4 canvas, the
point with stamp origin (1, 2) has y far edge 2 + 2 = 4 = h: the y trim
condition uses >= and slices the stamp to zero columns (first conjunct), so
the stamping succeeds but writes nothing — the kernel center cell at (2, 3)
stays 0.  The x axis behaves as the claim says: the point with origin
(2, 1) has x far edge 2 + 2 = 4 = w, the strict > does not trigger (second
conjunct), and its kernel center is stamped at (3, 2) with value 1. -/
theorem claim4_exact_fit_dropped :
    trimmedCols 2 1 smallGeom.pixel_size.2 ((2 * 1 : ℤ).toNat) = 0
    ∧ trimmedRows 2 1 smallGeom.pixel_size.1 ((2 * 1 : ℤ).toNat) = (2 * 1 : ℤ).toNat
    ∧ exceptIsOk (stampPoint expOne tileV invHavKm cfgR1 boxPt 0 smallGeom zeroSurf ptY4)
        = true
    ∧ surfAt (stampPoint expOne tileV invHavKm cfgR1 boxPt 0 smallGeom zeroSurf ptY4) 2 3
        = 0
    ∧ surfAt (stampPoint expOne tileV invHavKm cfgR1 boxPt 0 smallGeom zeroSurf ptX4) 3 2
        = 1 := by
  have hrY : pointRadius tileV invHavKm cfgR1 boxPt 0 ptY4 = 1 := by
    norm_num [pointRadius, metresToPixels, invHavKm, tileV, boxPt, cfgR1, ptY4]
  have hrX : pointRadius tileV invHavKm cfgR1 boxPt 0 ptX4 = 1 := by
    norm_num [pointRadius, metresToPixels, invHavKm, tileV, boxPt, cfgR1, ptX4]
  have hxY : originX tileV 0 smallGeom 1 ptY4 = 1 := by
    norm_num [originX, tileV, smallGeom, ptY4]
  have hyY : originY tileV 0 smallGeom 1 ptY4 = 2 := by
    norm_num [originY, tileV, smallGeom, ptY4]
  have hxX : originX tileV 0 smallGeom 1 ptX4 = 2 := by
    norm_num [originX, tileV, smallGeom, ptX4]
  have hyX : originY tileV 0 smallGeom 1 ptX4 = 1 := by
    norm_num [originY, tileV, smallGeom, ptX4]
  have hk1 := createKernel_of_nonneg expOne 1 (by norm_num)
  refine ⟨by decide, by decide, ?_, ?_, ?_⟩
  · simp only [stampPoint, hrY, hk1, hxY, hyY]
    rw [if_pos (by decide)]
    rfl
  · simp only [stampPoint, hrY, hk1, hxY, hyY]
    rw [if_pos (by decide)]
    simp only [surfAt]
    rw [if_neg (by decide), add_zero]
    rfl
  · simp only [stampPoint, hrX, hk1, hxX, hyX]
    rw [if_pos (by decide)]
    simp only [surfAt]
    rw [if_pos (by decide)]
    norm_num [zeroSurf, ptX4, kernVal, expOne, clampedOrigin, trimmedOff]

/-- C7: a data point whose resolved radius is zero is not rejected: the
code builds an empty 0 by 0 kernel, the trims and the slice assignment all
degenerate to an empty write, and the accumulated surface is returned
unchanged — a silent no-op, not an InvalidDataPoint failure (no such error
exists in the code; a negative radius would raise only an incidental
ValueError from np.zeros). -/
theorem claim7_radius_zero_silent :
    pointRadius tileV invHavId cfg0 boxPt 0 pt7 = 0
    ∧ accumulateSurface expOne tileV invHavId cfg0 boxPt 0 smallGeom [pt7]
        = .ok zeroSurf := by
  have h := stampPoint_radius_zero expOne tileV invHavId cfg0 boxPt 0 smallGeom pt7
    (pointRadius_invHavId tileV cfg0 boxPt 0 pt7) zeroSurf
  exact ⟨pointRadius_invHavId tileV cfg0 boxPt 0 pt7,
    by simp [accumulateSurface, runStamps, h]⟩

/-- C3: for every surface with at least one strictly positive value, the
palette index paint_image assigns to a cell of value v — the floor of
(bisect_left(sorted positives, v) / count of positives) * num_colors, which
is the definition of paintIndex — always lies within [0, num_colors - 1]
(for a positive v, bisect_left of an element present in the list is
strictly below the count, so the top rank never indexes past the palette),
and every cell with v <= 0 receives index 0, the coolest color (a binary
search for a non-positive value in a list of positives returns 0). -/
theorem claim3_rank_palette (w h : ℕ) (s : Surf) (numColors : ℕ)
    (hC : 0 < numColors) (hpos : ∃ v ∈ surfVals w h s, 0 < v) :
    ∀ v ∈ surfVals w h s,
      (0 ≤ paintIndex numColors (sortedPositives w h s) v
        ∧ paintIndex numColors (sortedPositives w h s) v ≤ (numColors : ℤ) - 1)
      ∧ (v ≤ 0 → paintIndex numColors (sortedPositives w h s) v = 0) := by
  intro v hv
  have hperm : (sortedPositives w h s).Perm (positiveValues w h s) :=
    List.perm_insertionSort _ _
  by_cases hv0 : 0 < v
  · have hvA : v ∈ sortedPositives w h s :=
      hperm.mem_iff.mpr (List.mem_filter.mpr ⟨hv, by simpa using hv0⟩)
    have hb : bisect_left (sortedPositives w h s) v < (sortedPositives w h s).length := by
      unfold bisect_left
      rcases eq_or_lt_of_le (List.countP_le_length (fun a => decide (a < v))
        (l := sortedPositives w h s)) with heq | hlt
      · exfalso
        have := List.countP_eq_length.mp heq v hvA
        simp at this
      · exact hlt
    have hn : 0 < (sortedPositives w h s).length := by omega
    refine ⟨⟨?_, ?_⟩, fun hle => absurd hle (by linarith)⟩
    · apply Int.floor_nonneg.mpr
      positivity
    · have h1 : (bisect_left (sortedPositives w h s) v : ℚ)
          / ((sortedPositives w h s).length : ℚ) < 1 := by
        rw [div_lt_one (by exact_mod_cast hn)]
        exact_mod_cast hb
      have hlt : ((bisect_left (sortedPositives w h s) v : ℚ)
            / ((sortedPositives w h s).length : ℚ)) * (numColors : ℚ)
          < ((numColors : ℤ) : ℚ) := by
        push_cast
        calc (bisect_left (sortedPositives w h s) v : ℚ)
              / ((sortedPositives w h s).length : ℚ) * (numColors : ℚ)
            < 1 * (numColors : ℚ) :=
              mul_lt_mul_of_pos_right h1 (by exact_mod_cast hC)
          _ = (numColors : ℚ) := one_mul _
      have := Int.floor_lt.mpr hlt
      unfold paintIndex
      omega
  · push_neg at hv0
    have hb0 : bisect_left (sortedPositives w h s) v = 0 := by
      unfold bisect_left
      rw [List.countP_eq_zero]
      intro a ha
      have hapos : 0 < a := by
        have := (List.mem_filter.mp (hperm.mem_iff.mp ha)).2
        simpa using this
      simp only [decide_eq_true_eq]
      intro hav
      linarith
    have hidx : paintIndex numColors (sortedPositives w h s) v = 0 := by
      unfold paintIndex
      rw [hb0]
      norm_num
    exact ⟨⟨by omega, by omega⟩, fun _ => hidx⟩

/-- Witness for C3 at a concrete input: a 1 by 1 all-ones surface and a
3-color palette, evaluated at the cell value 1. -/
theorem claim3_rank_palette_witness :
    (0 ≤ paintIndex 3 (sortedPositives 1 1 oneSurf) 1
      ∧ paintIndex 3 (sortedPositives 1 1 oneSurf) 1 ≤ (3 : ℤ) - 1)
    ∧ ((1 : ℚ) ≤ 0 → paintIndex 3 (sortedPositives 1 1 oneSurf) 1 = 0) :=
  claim3_rank_palette 1 1 oneSurf 3 (by norm_num)
    ⟨1, by decide, by norm_num⟩ 1 (by decide)

end Volute
